import Mathlib

/-!
Verification of the graphql-tools-fork interface and glue layer.

This development shallowly embeds the data model of `src/Interfaces.ts`
(resolver maps, validation options, transforms, delegation options,
merged-type info, schema-like objects) together with the orchestration
functions of the generate module (`src/unnamed/part_000`).  Functions whose
implementation is not part of the two provided source files (only their
declarations, callers or backwards-compatibility wrappers are) are modelled
from the specification; each such definition carries a doc comment starting
with `Modelled from the spec:`.
-/

namespace GraphQLTools

/-- Kind of a named GraphQL type as distinguished by the wrapped engine:
object, interface, union, scalar, enum or input object. -/
inductive TypeKind where
  | obj
  | iface
  | unionT
  | scalarT
  | enumT
  | inputObj
deriving DecidableEq

/-- Value of a field resolver slot: a user-supplied resolve function
(identified by name, since the host language compares functions by
reference) or the engine's default field resolver. -/
inductive Resolver where
  | user (id : String)
  | defaultFieldResolver
deriving DecidableEq

/-- A field definition of the wrapped engine: its name, whether it declares
arguments, the kind of its unwrapped result type, and its resolver slot. -/
structure FieldDef where
  name : String
  hasArgs : Bool
  typeKind : TypeKind
  resolve : Option Resolver := none
deriving DecidableEq

/-- A named type of the wrapped engine: name, kind, field definitions and,
for abstract (interface or union) types, whether a type-resolution
function is attached. -/
structure TypeDef where
  name : String
  kind : TypeKind
  fields : List FieldDef := []
  hasResolveType : Bool := false
deriving DecidableEq

/-- A GraphQLSchema of the wrapped engine, reduced to the parts this layer
touches: its named types and the optional schema-level resolver installed
by `addSchemaLevelResolver`. -/
structure Schema where
  types : List TypeDef
  schemaLevelResolver : Option Resolver := none
deriving DecidableEq

/-- The `IResolvers` resolver map (`Interfaces.ts`, lines 379 to 386):
type name to field name to the user-supplied resolver function, the latter
given by identifier.  The special field name `__resolveType` declares a
type-resolution function for an abstract type. -/
abbrev ResolverMap := List (String × List (String × String))

/-- Look up the resolver declared by a resolver map for a type and field. -/
def lookupFieldResolver (resolvers : ResolverMap) (t f : String) : Option String :=
  (List.lookup t resolvers).bind (fun fs => List.lookup f fs)

/-- Whether a resolver map declares a resolver for a type and field. -/
def hasResolverFor (resolvers : ResolverMap) (t f : String) : Bool :=
  (lookupFieldResolver resolvers t f).isSome

/-- The `IResolverValidationOptions` record (`Interfaces.ts`, lines 43 to
49); a member absent in TypeScript is modelled as `false`. -/
structure ValidationOptions where
  requireResolversForArgs : Bool := false
  requireResolversForNonScalar : Bool := false
  requireResolversForAllFields : Bool := false
  requireResolversForResolveType : Bool := false
  allowResolversNotInSchema : Bool := false
deriving DecidableEq

/-- Validation errors reported by the resolver map validator. -/
inductive VError where
  | missingResolverArgs (typeName fieldName : String)
  | missingResolverNonScalar (typeName fieldName : String)
  | missingResolverAllFields (typeName fieldName : String)
  | resolveTypeMissing (typeName : String)
  | extraneousType (typeName : String)
  | extraneousField (typeName fieldName : String)
deriving DecidableEq

/-- Whether a validation error is one of the two extraneous-resolver
errors. -/
def VError.isExtraneous : VError → Bool
  | .extraneousType _ => true
  | .extraneousField _ _ => true
  | _ => false

/-- Whether a type kind is abstract (interface or union). -/
def isAbstractKind (k : TypeKind) : Bool :=
  k == TypeKind.iface || k == TypeKind.unionT

/-- Whether a field result-type kind is non-scalar in the sense of the
validator: object, interface and union fields only; scalar and enum
fields are exempt. -/
def isNonScalarFieldKind (k : TypeKind) : Bool :=
  k == TypeKind.obj || k == TypeKind.iface || k == TypeKind.unionT

/-- Whether a type declares a field of the given name. -/
def fieldExists (T : TypeDef) (f : String) : Bool :=
  T.fields.any (fun fd => fd.name == f)

/-- Modelled from the spec: the per-field checks of the Resolver Map
Validator (the implementation of `assertResolversPresent` is not under the
provided sources).  When `requireResolversForAllFields` is set it
supersedes the args and non-scalar checks; otherwise a field with declared
arguments and no resolver fails under `requireResolversForArgs`, and a
non-scalar field with no resolver fails under
`requireResolversForNonScalar`. -/
def fieldErrors (resolvers : ResolverMap) (opts : ValidationOptions)
    (tname : String) (fd : FieldDef) : List VError :=
  if opts.requireResolversForAllFields then
    if hasResolverFor resolvers tname fd.name then []
    else [VError.missingResolverAllFields tname fd.name]
  else
    (if opts.requireResolversForArgs && fd.hasArgs
        && !(hasResolverFor resolvers tname fd.name) then
      [VError.missingResolverArgs tname fd.name]
    else [])
    ++
    (if opts.requireResolversForNonScalar && isNonScalarFieldKind fd.typeKind
        && !(hasResolverFor resolvers tname fd.name) then
      [VError.missingResolverNonScalar tname fd.name]
    else [])

/-- Modelled from the spec: the per-type checks of the Resolver Map
Validator: all field checks, plus the check that an abstract type declares
a type-resolution function under `requireResolversForResolveType`. -/
def typeErrors (resolvers : ResolverMap) (opts : ValidationOptions)
    (T : TypeDef) : List VError :=
  T.fields.flatMap (fieldErrors resolvers opts T.name)
  ++
  (if opts.requireResolversForResolveType && isAbstractKind T.kind
      && !(hasResolverFor resolvers T.name "__resolveType") then
    [VError.resolveTypeMissing T.name]
  else [])

/-- Modelled from the spec: the extraneous-resolver errors of one resolver
map entry.  An entry naming a type absent from the schema yields one
error; an entry for a known type yields one error per declared field
absent from that type, where a `__resolveType` declaration on an abstract
type counts as existing. -/
def entryExtraneousErrors (types : List TypeDef)
    (entry : String × List (String × String)) : List VError :=
  match types.find? (fun T => T.name == entry.1) with
  | none => [VError.extraneousType entry.1]
  | some T =>
    (entry.2.filter (fun fr =>
      !(fieldExists T fr.1)
      && !(fr.1 == "__resolveType" && isAbstractKind T.kind))).map
      (fun fr => VError.extraneousField entry.1 fr.1)

/-- Modelled from the spec: the extraneous-resolver checks of the Resolver
Map Validator, disabled entirely when `allowResolversNotInSchema` is
set. -/
def extraneousErrors (types : List TypeDef) (resolvers : ResolverMap)
    (opts : ValidationOptions) : List VError :=
  if opts.allowResolversNotInSchema then []
  else resolvers.flatMap (entryExtraneousErrors types)

/-- Modelled from the spec: the Resolver Map Validator.  Given the schema's
types, a resolver map and validation options, it runs every enabled check
on every field, type and resolver map entry and accumulates all
violations into a single collectively reported list. -/
def validateResolverMap (types : List TypeDef) (resolvers : ResolverMap)
    (opts : ValidationOptions) : List VError :=
  types.flatMap (typeErrors resolvers opts) ++ extraneousErrors types resolvers opts

/-- The resolver map declared by a schema's attached resolver slots: each
type contributes the fields whose slot holds a user-supplied resolver,
plus a `__resolveType` entry for an abstract type carrying a
type-resolution function. -/
def declaredResolvers (s : Schema) : ResolverMap :=
  s.types.map (fun T =>
    (T.name,
      (T.fields.filterMap (fun fd =>
        match fd.resolve with
        | some (Resolver.user id) => some (fd.name, id)
        | _ => none))
      ++
      (if T.hasResolveType && isAbstractKind T.kind then
        [("__resolveType", "__resolveType")]
      else [])))

/-- Modelled from the spec: `assertResolversPresent` (implementation not
under the provided sources) validates the resolvers attached to a schema
against the validation options, accumulating every violation in one
pass rather than stopping at the first. -/
def assertResolversPresent (s : Schema) (opts : ValidationOptions) : List VError :=
  validateResolverMap s.types (declaredResolvers s) opts

/-- The declarative reading of the validator contract: the property of an
error being a violation of the enabled validation options, stated with
existential quantifiers over the schema's types and the resolver map,
independently of the iteration order of the validator. -/
def IsViolation (types : List TypeDef) (resolvers : ResolverMap)
    (opts : ValidationOptions) : VError → Prop
  | .missingResolverAllFields t f =>
      opts.requireResolversForAllFields = true
      ∧ hasResolverFor resolvers t f = false
      ∧ ∃ T ∈ types, T.name = t ∧ ∃ fd ∈ T.fields, fd.name = f
  | .missingResolverArgs t f =>
      opts.requireResolversForAllFields = false
      ∧ opts.requireResolversForArgs = true
      ∧ hasResolverFor resolvers t f = false
      ∧ ∃ T ∈ types, T.name = t ∧ ∃ fd ∈ T.fields, fd.name = f ∧ fd.hasArgs = true
  | .missingResolverNonScalar t f =>
      opts.requireResolversForAllFields = false
      ∧ opts.requireResolversForNonScalar = true
      ∧ hasResolverFor resolvers t f = false
      ∧ ∃ T ∈ types, T.name = t
        ∧ ∃ fd ∈ T.fields, fd.name = f ∧ isNonScalarFieldKind fd.typeKind = true
  | .resolveTypeMissing t =>
      opts.requireResolversForResolveType = true
      ∧ hasResolverFor resolvers t "__resolveType" = false
      ∧ ∃ T ∈ types, T.name = t ∧ isAbstractKind T.kind = true
  | .extraneousType t =>
      opts.allowResolversNotInSchema = false
      ∧ ∃ entry ∈ resolvers, entry.1 = t
        ∧ types.find? (fun T => T.name == entry.1) = none
  | .extraneousField t f =>
      opts.allowResolversNotInSchema = false
      ∧ ∃ entry ∈ resolvers, entry.1 = t
        ∧ ∃ T, types.find? (fun x => x.name == entry.1) = some T
          ∧ ∃ fr ∈ entry.2, fr.1 = f ∧ fieldExists T f = false
            ∧ ¬(f = "__resolveType" ∧ isAbstractKind T.kind = true)

/-- The resolver slot value the attacher writes into one field: the
user-supplied resolve function when the resolver map names the field,
else the engine's default field resolver. -/
def chosenResolver (resolvers : ResolverMap) (tname fname : String) : Resolver :=
  match lookupFieldResolver resolvers tname fname with
  | some id => Resolver.user id
  | none => Resolver.defaultFieldResolver

/-- Attachment of the chosen resolver into one field's resolver slot. -/
def attachFieldResolver (resolvers : ResolverMap) (tname : String)
    (fd : FieldDef) : FieldDef :=
  { fd with resolve := some (chosenResolver resolvers tname fd.name) }

/-- Attachment of the chosen resolvers into every field of one type. -/
def attachTypeResolvers (resolvers : ResolverMap) (T : TypeDef) : TypeDef :=
  { T with fields := T.fields.map (attachFieldResolver resolvers T.name) }

/-- Modelled from the spec: `addResolversToSchema` (implementation not
under the provided sources, only its declaration and backwards
compatibility wrapper are).  Given a schema and a resolver map it mutates
the schema's field resolver slots in place so that each field's resolve
function is the user-supplied one, or the engine's default resolver if
none is supplied; the mutation of the passed-in schema object is modelled
as the returned schema state. -/
def addResolversToSchema (s : Schema) (resolvers : ResolverMap) : Schema :=
  { s with types := s.types.map (attachTypeResolvers resolvers) }

/-- Erase every field resolver slot of a schema, keeping all other parts;
used to state that resolver attachment changes nothing else. -/
def eraseResolvers (s : Schema) : Schema :=
  { s with
    types := s.types.map (fun T =>
      { T with fields := T.fields.map (fun fd => { fd with resolve := none }) }) }

/-- The first field named `f` of the first type named `t` of a schema. -/
def getField (s : Schema) (t f : String) : Option FieldDef :=
  (s.types.find? (fun T => T.name == t)).bind
    (fun T => T.fields.find? (fun fd => fd.name == f))

/-- The resolver slot of the first field named `f` of the first type named
`t` of a schema. -/
def getFieldResolve (s : Schema) (t f : String) : Option (Option Resolver) :=
  (getField s t f).map (fun fd => fd.resolve)

/-- Modelled from the spec: `addSchemaLevelResolver` (implementation not
under the provided sources) modifies the schema passed as its first
argument to carry a schema-level resolve function; the mutation is
modelled as the returned schema state. -/
def addSchemaLevelResolver (s : Schema) (fn : Resolver) : Schema :=
  { s with schemaLevelResolver := some fn }

/-- The `IAddResolversToSchemaOptions` record (`Interfaces.ts`, lines 66 to
72) reduced to the members with modelled behavior: the schema and the
resolver map. -/
structure AddResolversOptions where
  schema : Schema
  resolvers : ResolverMap

/-- Modelled from the spec: the flexible legacy signature of
`addResolversToSchema`, which accepts either an options record or a schema
followed by positional resolvers and validation options. -/
def addResolversToSchemaPoly (schemaOrOptions : Schema ⊕ AddResolversOptions)
    (legacyInputResolvers : Option ResolverMap)
    (legacyInputValidationOptions : Option ValidationOptions) : Schema :=
  match schemaOrOptions, legacyInputValidationOptions with
  | Sum.inl schema, _ => addResolversToSchema schema (legacyInputResolvers.getD [])
  | Sum.inr options, _ => addResolversToSchema options.schema options.resolvers

/-- Backwards-compatibility wrapper `addResolveFunctionsToSchema`
(`src/unnamed/part_000`, lines 882 to 892): forwards all arguments to
`addResolversToSchema` and returns its result. -/
def addResolveFunctionsToSchema (schemaOrOptions : Schema ⊕ AddResolversOptions)
    (legacyInputResolvers : Option ResolverMap)
    (legacyInputValidationOptions : Option ValidationOptions) : Schema :=
  addResolversToSchemaPoly schemaOrOptions legacyInputResolvers
    legacyInputValidationOptions

/-- Backwards-compatibility wrapper `addSchemaLevelResolveFunction`
(`src/unnamed/part_000`, lines 894 to 899): calls `addSchemaLevelResolver`
on the same schema and function; its effect on the schema is the resulting
schema state. -/
def addSchemaLevelResolveFunction (schema : Schema) (fn : Resolver) : Schema :=
  addSchemaLevelResolver schema fn

/-- Backwards-compatibility wrapper `assertResolveFunctionsPresent`
(`src/unnamed/part_000`, lines 901 to 906): calls `assertResolversPresent`
with the given options, defaulting to the empty record when omitted. -/
def assertResolveFunctionsPresent (schema : Schema)
    (resolverValidationOptions : Option ValidationOptions) : List VError :=
  assertResolversPresent schema (resolverValidationOptions.getD {})

/-- The `Request` record of `Interfaces.ts`, lines 548 to 552: a document,
variable values and optional extensions, with the unconstrained payloads
modelled as strings.  The source member `variables` is rendered as
`variableValues` because its original name is reserved here. -/
structure Request where
  document : String
  variableValues : List (String × String) := []
  extensions : Option String := none
deriving DecidableEq

/-- The `Result` execution-result record (`Interfaces.ts`, lines 557 to
559): optional data, a list of errors and optional extensions, with the
unconstrained payloads modelled as strings. -/
structure ExecResult where
  data : Option String := none
  errors : List String := []
  extensions : Option String := none
deriving DecidableEq

/-- The `Transform` record of `Interfaces.ts`, lines 88 to 92: three
optional mutation functions for schemas, requests and results. -/
structure Transform where
  transformSchema : Option (Schema → Schema) := none
  transformRequest : Option (Request → Request) := none
  transformResult : Option (ExecResult → ExecResult) := none

/-- Modelled from the spec: the Delegator applies the chain of
`transformRequest` mutations in registration order before dispatch;
a transform without a `transformRequest` member leaves the request
unchanged. -/
def applyRequestTransforms (transforms : List Transform) (r : Request) : Request :=
  transforms.foldl (fun req t => (t.transformRequest.getD id) req) r

/-- Modelled from the spec: the Delegator applies the chain of
`transformResult` mutations in reverse registration order after the
response returns, so the first-registered transform runs last and
produces the final result. -/
def applyResultTransforms (transforms : List Transform) (r : ExecResult) : ExecResult :=
  transforms.foldr (fun t res => (t.transformResult.getD id) res) r

/-- The `IFetcherOperation` record of `Interfaces.ts`, lines 150 to 155,
reduced to query, operation name and variable values.  The source member
`variables` is rendered as `variableValues` because its original name is
reserved here. -/
structure IFetcherOperation where
  query : String
  operationName : Option String := none
  variableValues : List (String × String) := []
deriving DecidableEq

/-- The `Fetcher` transport of `Interfaces.ts`, lines 143 to 145: a
function from an operation descriptor to an execution result, with the
deferred value elided under the single-threaded cooperative model. -/
abbrev Fetcher := IFetcherOperation → ExecResult

/-- Conversion of a request into the operation descriptor handed to a
Fetcher. -/
def toFetcherOperation (r : Request) : IFetcherOperation :=
  { query := r.document, operationName := none, variableValues := r.variableValues }

/-- Modelled from the spec: `delegateToSchema` (implementation not under
the provided sources).  It applies the registered `transformRequest`
mutations in order, dispatches the transformed request through the
injected Fetcher, and applies the registered `transformResult` mutations
in reverse order to the response. -/
def delegateToSchema (fetcher : Fetcher) (transforms : List Transform)
    (request : Request) : ExecResult :=
  applyResultTransforms transforms
    (fetcher (toFetcherOperation (applyRequestTransforms transforms request)))

/-- One sub-schema's contribution to a merged type: the contributing
sub-schema configuration, identified by a reference id since the host
language compares configurations by object reference, and the field names
that sub-schema defines for the type. -/
structure MergeContribution where
  subschema : Nat
  fields : List String
deriving DecidableEq

/-- The two field-ownership maps of `MergedTypeInfo` (`Interfaces.ts`,
lines 329 to 337): `uniqueFields` maps a field name to its sole
contributing sub-schema, `nonUniqueFields` maps a field name to all the
contributing sub-schemas. -/
structure MergedTypeInfo where
  uniqueFields : List (String × Nat)
  nonUniqueFields : List (String × List Nat)
deriving DecidableEq

/-- The sub-schemas that define a field for the merged type, in the order
the contributing sub-schemas were given. -/
def fieldOwners (contribs : List MergeContribution) (f : String) : List Nat :=
  (contribs.filter (fun c => decide (f ∈ c.fields))).map MergeContribution.subschema

/-- All field names contributed to the merged type, without duplicates. -/
def mergedFieldNames (contribs : List MergeContribution) : List String :=
  (contribs.flatMap MergeContribution.fields).dedup

/-- The sole owner of a field, when exactly one contributing sub-schema
defines it. -/
def uniqueOwner (contribs : List MergeContribution) (f : String) : Option Nat :=
  match fieldOwners contribs f with
  | [s] => some s
  | _ => none

/-- The full owner list of a field, when more than one contributing
sub-schema defines it. -/
def sharedOwners (contribs : List MergeContribution) (f : String) : Option (List Nat) :=
  if 2 ≤ (fieldOwners contribs f).length then some (fieldOwners contribs f) else none

/-- Modelled from the spec: the Merge Info Registry (implementation not
under the provided sources) computes, for one merged type, the
`uniqueFields` map sending each field defined by exactly one contributing
sub-schema to that sole sub-schema, and the `nonUniqueFields` map sending
each field defined by more than one contributing sub-schema to all its
contributors in declaration order. -/
def computeMergedTypeInfo (contribs : List MergeContribution) : MergedTypeInfo :=
  { uniqueFields :=
      (mergedFieldNames contribs).filterMap
        (fun f => (uniqueOwner contribs f).map (Prod.mk f)),
    nonUniqueFields :=
      (mergedFieldNames contribs).filterMap
        (fun f => (sharedOwners contribs f).map (Prod.mk f)) }

/-- The `NextResolverFn` continuation type of `Interfaces.ts`, line 463,
with the deferred value elided under the single-threaded cooperative
model. -/
def NextResolverFn (α : Type) : Type := Unit → α

/-- The `DirectiveResolverFn` type of `Interfaces.ts`, lines 468 to 474,
reduced to the continuation argument: the resolver parameters (source,
args, context, info) are constant along the chain and elided. -/
def DirectiveResolverFn (α : Type) : Type := NextResolverFn α → α

/-- Modelled from the spec: `attachDirectiveResolvers` (implementation not
under the provided sources) composes the directive resolvers of a field
as a middleware chain around the base resolver, built right to left so
the first-declared directive executes first and each directive receives
the rest of the chain as its continuation. -/
def buildDirectiveChain {α : Type} (directives : List (DirectiveResolverFn α))
    (base : NextResolverFn α) : NextResolverFn α :=
  directives.foldr (fun d next => fun _ => d next) base

/-- A resolver computation instrumented to record execution order: it maps
the log of steps taken so far to the extended log. -/
abbrev LogRes := List String → List String

/-- A base field resolver that records its own execution. -/
def baseLogger : NextResolverFn LogRes :=
  fun _ => fun log => log ++ ["base"]

/-- A directive resolver that records its own execution and then either
calls its continuation or short-circuits, depending on its gate. -/
def gateDirective (name : String) (callsNext : Bool) : DirectiveResolverFn LogRes :=
  fun next => fun log =>
    if callsNext then next () (log ++ [name]) else log ++ [name]

/-- Run an instrumented directive chain on the empty log, yielding the
order in which the wrappers and the base resolver executed. -/
def runChain (directives : List (DirectiveResolverFn LogRes))
    (base : NextResolverFn LogRes) : List String :=
  (buildDirectiveChain directives base) () []

/-- Truthiness domain for the property read performed by
`isSubschemaConfig`: reading `schema` off a value yields the absent
marker, a null, or a schema object. -/
inductive JSValue where
  | undefinedV
  | nullV
  | schemaObj (s : Schema)
deriving DecidableEq

/-- JavaScript `Boolean` coercion on the property-read domain: absent and
null values are falsy, objects are truthy. -/
def truthy : JSValue → Bool
  | .schemaObj _ => true
  | _ => false

/-- The `SubschemaConfig` record of `Interfaces.ts`, lines 165 to 175,
reduced to its sole required member: the wrapped schema. -/
structure SubschemaConfig where
  schema : Schema
deriving DecidableEq

/-- A `DocumentNode` of the wrapped engine: its kind tag and definitions. -/
structure DocumentNode where
  kind : String := "Document"
  definitions : List String := []
deriving DecidableEq

/-- The `SchemaLikeObject` union of `Interfaces.ts`, lines 208 to 213: a
sub-schema configuration, a schema, a type-definition string, a document
node, or an array of named types. -/
inductive SchemaLikeObject where
  | subschemaConfig (config : SubschemaConfig)
  | schema (s : Schema)
  | str (s : String)
  | document (d : DocumentNode)
  | namedTypes (ts : List TypeDef)
deriving DecidableEq

/-- Reading the `schema` property off a schema-like object: only a
sub-schema configuration carries one; on every other variant the read
yields the absent marker. -/
def schemaProp : SchemaLikeObject → JSValue
  | .subschemaConfig config => JSValue.schemaObj config.schema
  | _ => JSValue.undefinedV

/-- The `isSubschemaConfig` predicate of `Interfaces.ts`, lines 218 to 222:
it returns the `Boolean` coercion of the value's `schema` property. -/
def isSubschemaConfig (value : SchemaLikeObject) : Bool :=
  truthy (schemaProp value)

/-- A small concrete schema type list used to witness the validation
properties: a Query object type with an author field taking arguments and
a scalar count field, and a Vehicle interface type. -/
def demoTypes : List TypeDef :=
  [ { name := "Query", kind := TypeKind.obj,
      fields := [ { name := "author", hasArgs := true, typeKind := TypeKind.obj },
                  { name := "count", hasArgs := false, typeKind := TypeKind.scalarT } ] },
    { name := "Vehicle", kind := TypeKind.iface,
      fields := [ { name := "maxSpeed", hasArgs := false, typeKind := TypeKind.scalarT } ] } ]

/-- A small concrete schema used to witness the attachment properties. -/
def demoSchema : Schema :=
  { types := demoTypes }

/-- A concrete resolver map whose every entry names an existing type and
field. -/
def demoResolvers : ResolverMap :=
  [("Query", [("author", "r1")])]

/-- A concrete resolver map with one entry naming a type absent from the
schema and one entry naming a field absent from its type. -/
def demoExtraneous : ResolverMap :=
  [("Query", [("author", "r1")]), ("Ghost", [("x", "r2")]),
   ("Vehicle", [("nope", "r3")])]

/-- Looking up a key in a list built by pairing each element of a
duplicate-free key list with an optionally computed value finds exactly
the value computed for that key. -/
theorem lookup_keyed_filterMap {β : Type} (g : String → Option β)
    (l : List String) (hl : l.Nodup) (a : String) :
    List.lookup a (l.filterMap (fun x => (g x).map (Prod.mk x))) =
      if a ∈ l then g a else none := by
  induction l with
  | nil => simp
  | cons x xs ih =>
    rcases List.nodup_cons.mp hl with ⟨hx, hxs⟩
    by_cases hax : a = x
    · subst hax
      cases hg : g a with
      | none => simp [List.filterMap_cons, hg, ih hxs, hx]
      | some b => simp [List.filterMap_cons, hg, List.lookup]
    · cases hg : g x with
      | none => simp [List.filterMap_cons, hg, ih hxs, hax]
      | some b =>
        have hbeq : (a == x) = false := beq_eq_false_iff_ne.mpr hax
        simp [List.filterMap_cons, hg, List.lookup, hax, ih hxs, hbeq]

/-- Membership in the duplicate-free merged field name list holds exactly
when some contribution defines the field. -/
theorem mem_mergedFieldNames (contribs : List MergeContribution) (f : String) :
    f ∈ mergedFieldNames contribs ↔ ∃ c ∈ contribs, f ∈ c.fields := by
  simp [mergedFieldNames, List.mem_dedup, List.mem_flatMap]

/-- C2: transforms are applied as an onion: on a delegated request the
head (first-registered, outermost) transform's `transformRequest` is
applied first, to the original request, before the remaining chain; and
its `transformResult` is applied last, to the result of the remaining
chain, producing the final result.  Equivalently, the result chain runs
in reverse registration order. -/
theorem transform_onion_wrapping :
    (∀ (t : Transform) (rest : List Transform) (req : Request),
      applyRequestTransforms (t :: rest) req =
        applyRequestTransforms rest ((t.transformRequest.getD id) req))
    ∧ (∀ (t : Transform) (rest : List Transform) (res : ExecResult),
      applyResultTransforms (t :: rest) res =
        (t.transformResult.getD id) (applyResultTransforms rest res))
    ∧ (∀ (transforms : List Transform) (res : ExecResult),
      applyResultTransforms transforms res =
        transforms.reverse.foldl (fun acc t => (t.transformResult.getD id) acc) res) := by
  refine ⟨fun t rest req => rfl, fun t rest res => rfl, fun transforms res => ?_⟩
  simp [applyResultTransforms, List.foldl_reverse]

/-- C3: with a Fetcher that returns the fixed result `r` for every
operation, `delegateToSchema` returns exactly `r` when no transforms are
registered, and in general returns the registered `transformResult`
functions composed in reverse registration order applied to `r`. -/
theorem delegateToSchema_roundTrip :
    (∀ (r : ExecResult) (request : Request),
      delegateToSchema (fun _ => r) [] request = r)
    ∧ (∀ (r : ExecResult) (transforms : List Transform) (request : Request),
      delegateToSchema (fun _ => r) transforms request =
        applyResultTransforms transforms r) := by
  exact ⟨fun r request => rfl, fun r transforms request => rfl⟩

/-- C7: the directive chain for two directives declared in the order `a`,
`b` hands `a` a continuation running `b`, whose continuation runs the
base resolver; on the instrumented resolvers the execution order is `a`
then `b` then the base, and the base resolver executes exactly when both
wrappers call their continuation. -/
theorem directiveChain_outermost_first :
    (∀ (α : Type) (a b : DirectiveResolverFn α) (base : NextResolverFn α),
      buildDirectiveChain [a, b] base = fun _ => a (fun _ => b base))
    ∧ (∀ ga gb : Bool,
      runChain [gateDirective "a" ga, gateDirective "b" gb] baseLogger =
        if ga then (if gb then ["a", "b", "base"] else ["a", "b"]) else ["a"])
    ∧ (∀ ga gb : Bool,
      ("base" ∈ runChain [gateDirective "a" ga, gateDirective "b" gb] baseLogger
        ↔ ga = true ∧ gb = true)) := by
  refine ⟨fun α a b base => rfl, fun ga gb => ?_, fun ga gb => ?_⟩
  · cases ga <;> cases gb <;> rfl
  · cases ga <;> cases gb <;> simp [runChain, buildDirectiveChain, gateDirective, baseLogger]

/-- C9: each backwards-compatibility wrapper is extensionally equal to its
renamed counterpart on all inputs: `addResolveFunctionsToSchema` returns
exactly `addResolversToSchema` applied to the same arguments,
`addSchemaLevelResolveFunction` has the same effect as
`addSchemaLevelResolver`, and `assertResolveFunctionsPresent` has the same
effect as `assertResolversPresent`, with the options defaulting to the
empty record when omitted. -/
theorem legacyWrappers_extensionally_equal :
    (∀ (schemaOrOptions : Schema ⊕ AddResolversOptions)
        (legacyInputResolvers : Option ResolverMap)
        (legacyInputValidationOptions : Option ValidationOptions),
      addResolveFunctionsToSchema schemaOrOptions legacyInputResolvers
          legacyInputValidationOptions =
        addResolversToSchemaPoly schemaOrOptions legacyInputResolvers
          legacyInputValidationOptions)
    ∧ (∀ (schema : Schema) (fn : Resolver),
      addSchemaLevelResolveFunction schema fn = addSchemaLevelResolver schema fn)
    ∧ (∀ (schema : Schema) (opts : ValidationOptions),
      assertResolveFunctionsPresent schema (some opts) =
        assertResolversPresent schema opts)
    ∧ (∀ schema : Schema,
      assertResolveFunctionsPresent schema none = assertResolversPresent schema {}) := by
  exact ⟨fun a b c => rfl, fun s fn => rfl, fun s o => rfl, fun s => rfl⟩

/-- C10: `isSubschemaConfig` returns the truthiness of the value's
`schema` property, hence `true` exactly on sub-schema configurations
(whose required schema member is an object) and `false` on a plain
schema, a string, a document node and an array of named types, none of
which carries a `schema` property. -/
theorem isSubschemaConfig_characterization :
    (∀ value : SchemaLikeObject,
      isSubschemaConfig value = truthy (schemaProp value))
    ∧ (∀ config : SubschemaConfig,
      isSubschemaConfig (SchemaLikeObject.subschemaConfig config) = true)
    ∧ (∀ s : Schema, isSubschemaConfig (SchemaLikeObject.schema s) = false)
    ∧ (∀ s : String, isSubschemaConfig (SchemaLikeObject.str s) = false)
    ∧ (∀ d : DocumentNode, isSubschemaConfig (SchemaLikeObject.document d) = false)
    ∧ (∀ ts : List TypeDef, isSubschemaConfig (SchemaLikeObject.namedTypes ts) = false)
    ∧ (∀ value : SchemaLikeObject,
      isSubschemaConfig value = true ↔
        ∃ config, value = SchemaLikeObject.subschemaConfig config) := by
  refine ⟨fun v => rfl, fun c => rfl, fun s => rfl, fun s => rfl, fun d => rfl,
    fun ts => rfl, fun v => ?_⟩
  cases v <;> simp [isSubschemaConfig, schemaProp, truthy]

/-- C1: in the merged-type info built from an ordered list of
contributions, a field defined by exactly one contributing sub-schema is
found in `uniqueFields` mapped to that sole sub-schema and not in
`nonUniqueFields`; a field defined by more than one contributing
sub-schema is found in `nonUniqueFields` mapped to all its contributors
in declaration order and not in `uniqueFields`; no field is in both maps;
and when the contributions have pairwise disjoint field sets,
`nonUniqueFields` is empty. -/
theorem mergedTypeInfo_field_ownership (contribs : List MergeContribution) :
    (∀ (f : String) (c : MergeContribution),
      contribs.filter (fun d => decide (f ∈ d.fields)) = [c] →
        List.lookup f (computeMergedTypeInfo contribs).uniqueFields = some c.subschema
        ∧ List.lookup f (computeMergedTypeInfo contribs).nonUniqueFields = none)
    ∧ (∀ f : String, 2 ≤ (fieldOwners contribs f).length →
        List.lookup f (computeMergedTypeInfo contribs).nonUniqueFields =
          some (fieldOwners contribs f)
        ∧ List.lookup f (computeMergedTypeInfo contribs).uniqueFields = none)
    ∧ (∀ f : String,
        List.lookup f (computeMergedTypeInfo contribs).uniqueFields = none
        ∨ List.lookup f (computeMergedTypeInfo contribs).nonUniqueFields = none)
    ∧ (contribs.Pairwise (fun c d => ∀ f ∈ c.fields, f ∉ d.fields) →
        (computeMergedTypeInfo contribs).nonUniqueFields = []) := by
  have hnodup := List.nodup_dedup (contribs.flatMap MergeContribution.fields)
  have hlookupU : ∀ f : String,
      List.lookup f (computeMergedTypeInfo contribs).uniqueFields =
        if f ∈ mergedFieldNames contribs then uniqueOwner contribs f else none :=
    fun f => lookup_keyed_filterMap (uniqueOwner contribs) _ hnodup f
  have hlookupN : ∀ f : String,
      List.lookup f (computeMergedTypeInfo contribs).nonUniqueFields =
        if f ∈ mergedFieldNames contribs then sharedOwners contribs f else none :=
    fun f => lookup_keyed_filterMap (sharedOwners contribs) _ hnodup f
  refine ⟨fun f c hfilter => ?_, fun f hlen => ?_, fun f => ?_, fun hdisj => ?_⟩
  · have hcmem : c ∈ contribs.filter (fun d => decide (f ∈ d.fields)) := by
      rw [hfilter]; exact List.mem_singleton.mpr rfl
    have hc : c ∈ contribs := List.mem_of_mem_filter hcmem
    have hcf : f ∈ c.fields := by simpa using List.of_mem_filter hcmem
    have hmem : f ∈ mergedFieldNames contribs :=
      (mem_mergedFieldNames contribs f).mpr ⟨c, hc, hcf⟩
    have howners : fieldOwners contribs f = [c.subschema] := by
      rw [fieldOwners, hfilter]; rfl
    refine ⟨?_, ?_⟩
    · rw [hlookupU f, if_pos hmem, uniqueOwner, howners]
    · rw [hlookupN f, if_pos hmem, sharedOwners, howners]
      simp
  · have hne : contribs.filter (fun d => decide (f ∈ d.fields)) ≠ [] := by
      intro hnil
      rw [fieldOwners, hnil] at hlen
      simp at hlen
    obtain ⟨c, hcmem⟩ := List.exists_mem_of_ne_nil _ hne
    have hc : c ∈ contribs := List.mem_of_mem_filter hcmem
    have hcf : f ∈ c.fields := by simpa using List.of_mem_filter hcmem
    have hmem : f ∈ mergedFieldNames contribs :=
      (mem_mergedFieldNames contribs f).mpr ⟨c, hc, hcf⟩
    refine ⟨?_, ?_⟩
    · rw [hlookupN f, if_pos hmem, sharedOwners, if_pos hlen]
    · rw [hlookupU f, if_pos hmem, uniqueOwner]
      cases howners : fieldOwners contribs f with
      | nil => rfl
      | cons s rest =>
        cases rest with
        | nil => rw [howners] at hlen; simp at hlen
        | cons s2 rest2 => rfl
  · by_cases hmem : f ∈ mergedFieldNames contribs
    · cases howners : fieldOwners contribs f with
      | nil =>
        left; rw [hlookupU f, if_pos hmem, uniqueOwner, howners]
      | cons s rest =>
        cases rest with
        | nil =>
          right; rw [hlookupN f, if_pos hmem, sharedOwners, howners]; simp
        | cons s2 rest2 =>
          left; rw [hlookupU f, if_pos hmem, uniqueOwner, howners]
    · left; rw [hlookupU f, if_neg hmem]
  · have hshort : ∀ f : String, (fieldOwners contribs f).length ≤ 1 := by
      intro f
      rw [fieldOwners, List.length_map]
      cases hfilter : contribs.filter (fun d => decide (f ∈ d.fields)) with
      | nil => simp
      | cons x rest =>
        cases rest with
        | nil => simp
        | cons y rest2 =>
          exfalso
          have hpair : (contribs.filter (fun d => decide (f ∈ d.fields))).Pairwise
              (fun c d => ∀ g ∈ c.fields, g ∉ d.fields) := hdisj.filter _
          rw [hfilter] at hpair
          have hxy : ∀ g ∈ x.fields, g ∉ y.fields :=
            (List.pairwise_cons.mp hpair).1 y (List.mem_cons_self y rest2)
          have hx : f ∈ x.fields := by
            have : x ∈ contribs.filter (fun d => decide (f ∈ d.fields)) := by
              rw [hfilter]; exact List.mem_cons_self x (y :: rest2)
            simpa using List.of_mem_filter this
          have hy : f ∈ y.fields := by
            have : y ∈ contribs.filter (fun d => decide (f ∈ d.fields)) := by
              rw [hfilter]
              exact List.mem_cons_of_mem x (List.mem_cons_self y rest2)
            simpa using List.of_mem_filter this
          exact hxy f hx hy
    have : ∀ f ∈ mergedFieldNames contribs,
        (sharedOwners contribs f).map (Prod.mk f) = none := by
      intro f _
      rw [sharedOwners, if_neg]
      · rfl
      · intro h2
        exact absurd (le_trans h2 (hshort f)) (by norm_num)
    exact List.filterMap_eq_nil_iff.mpr this

/-- Witness for C1 at concrete contributions: with sub-schema 0 defining
fields id and shared and sub-schema 1 defining fields name and shared,
the field id is unique to sub-schema 0 and the field shared is non-unique
with contributors 0 then 1; and with disjoint field sets the non-unique
map is empty. -/
theorem mergedTypeInfo_field_ownership_witness :
    List.lookup "id"
        (computeMergedTypeInfo
          [⟨0, ["id", "shared"]⟩, ⟨1, ["name", "shared"]⟩]).uniqueFields = some 0
    ∧ List.lookup "shared"
        (computeMergedTypeInfo
          [⟨0, ["id", "shared"]⟩, ⟨1, ["name", "shared"]⟩]).nonUniqueFields =
        some [0, 1]
    ∧ (computeMergedTypeInfo [⟨0, ["x"]⟩, ⟨1, ["y"]⟩]).nonUniqueFields = [] := by
  refine ⟨?_, ?_, ?_⟩
  · exact ((mergedTypeInfo_field_ownership
      [⟨0, ["id", "shared"]⟩, ⟨1, ["name", "shared"]⟩]).1 "id"
      ⟨0, ["id", "shared"]⟩ (by decide)).1
  · exact ((mergedTypeInfo_field_ownership
      [⟨0, ["id", "shared"]⟩, ⟨1, ["name", "shared"]⟩]).2.1 "shared" (by decide)).1
  · exact (mergedTypeInfo_field_ownership [⟨0, ["x"]⟩, ⟨1, ["y"]⟩]).2.2.2 (by decide)

/-- Characterization of the errors produced by the per-field checks. -/
theorem mem_fieldErrors (resolvers : ResolverMap) (opts : ValidationOptions)
    (tname : String) (fd : FieldDef) (e : VError) :
    e ∈ fieldErrors resolvers opts tname fd ↔
      (opts.requireResolversForAllFields = true
        ∧ hasResolverFor resolvers tname fd.name = false
        ∧ e = VError.missingResolverAllFields tname fd.name)
      ∨ (opts.requireResolversForAllFields = false
        ∧ opts.requireResolversForArgs = true ∧ fd.hasArgs = true
        ∧ hasResolverFor resolvers tname fd.name = false
        ∧ e = VError.missingResolverArgs tname fd.name)
      ∨ (opts.requireResolversForAllFields = false
        ∧ opts.requireResolversForNonScalar = true
        ∧ isNonScalarFieldKind fd.typeKind = true
        ∧ hasResolverFor resolvers tname fd.name = false
        ∧ e = VError.missingResolverNonScalar tname fd.name) := by
  unfold fieldErrors
  cases hall : opts.requireResolversForAllFields
    <;> cases hargs : opts.requireResolversForArgs
    <;> cases hfa : fd.hasArgs
    <;> cases hns : opts.requireResolversForNonScalar
    <;> cases hnsk : isNonScalarFieldKind fd.typeKind
    <;> cases hhas : hasResolverFor resolvers tname fd.name
    <;> simp [hall, hargs, hfa, hns, hnsk, hhas]

/-- Characterization of the errors produced by the per-type checks. -/
theorem mem_typeErrors (resolvers : ResolverMap) (opts : ValidationOptions)
    (T : TypeDef) (e : VError) :
    e ∈ typeErrors resolvers opts T ↔
      (∃ fd ∈ T.fields, e ∈ fieldErrors resolvers opts T.name fd)
      ∨ (opts.requireResolversForResolveType = true
        ∧ isAbstractKind T.kind = true
        ∧ hasResolverFor resolvers T.name "__resolveType" = false
        ∧ e = VError.resolveTypeMissing T.name) := by
  unfold typeErrors
  cases hrt : opts.requireResolversForResolveType
    <;> cases hab : isAbstractKind T.kind
    <;> cases hhas : hasResolverFor resolvers T.name "__resolveType"
    <;> simp [hrt, hab, hhas, List.mem_flatMap]

/-- Characterization of the extraneous errors produced for one resolver
map entry. -/
theorem mem_entryExtraneousErrors (types : List TypeDef)
    (entry : String × List (String × String)) (e : VError) :
    e ∈ entryExtraneousErrors types entry ↔
      (types.find? (fun T => T.name == entry.1) = none
        ∧ e = VError.extraneousType entry.1)
      ∨ (∃ T, types.find? (fun x => x.name == entry.1) = some T
          ∧ ∃ fr ∈ entry.2, fieldExists T fr.1 = false
            ∧ ¬(fr.1 = "__resolveType" ∧ isAbstractKind T.kind = true)
            ∧ e = VError.extraneousField entry.1 fr.1) := by
  unfold entryExtraneousErrors
  cases hfind : types.find? (fun T => T.name == entry.1) with
  | none => simp
  | some T =>
    rw [List.mem_map]
    constructor
    · rintro ⟨fr, hfr, he⟩
      have hmem : fr ∈ entry.2 := List.mem_of_mem_filter hfr
      have hcond := List.of_mem_filter hfr
      rw [Bool.and_eq_true, Bool.not_eq_true', Bool.not_eq_true'] at hcond
      refine Or.inr ⟨T, rfl, fr, hmem, hcond.1, ?_, he.symm⟩
      rintro ⟨hrt, hab⟩
      rw [hrt, hab] at hcond
      simp at hcond
    · rintro (⟨hnone, _⟩ | ⟨T', hTT, fr, hmem, hfe, hrt, he⟩)
      · exact absurd hnone (by simp)
      · obtain rfl : T = T' := by injection hTT
        refine ⟨fr, List.mem_filter.mpr ⟨hmem, ?_⟩, he.symm⟩
        rw [Bool.and_eq_true, Bool.not_eq_true', Bool.not_eq_true']
        refine ⟨hfe, ?_⟩
        by_cases hb : fr.1 = "__resolveType"
        · cases hab : isAbstractKind T.kind
          · simp [hb, hab]
          · exact absurd ⟨hb, hab⟩ hrt
        · simp [hb]

/-- Characterization of the errors produced by the extraneous-resolver
checks over a whole resolver map. -/
theorem mem_extraneousErrors (types : List TypeDef) (resolvers : ResolverMap)
    (opts : ValidationOptions) (e : VError) :
    e ∈ extraneousErrors types resolvers opts ↔
      opts.allowResolversNotInSchema = false
      ∧ ∃ entry ∈ resolvers, e ∈ entryExtraneousErrors types entry := by
  unfold extraneousErrors
  cases hallow : opts.allowResolversNotInSchema
    <;> simp [hallow, List.mem_flatMap]

/-- The validator reports an error exactly when it is a violation of the
enabled validation options: every violation is reported and nothing
else. -/
theorem mem_validateResolverMap (types : List TypeDef) (resolvers : ResolverMap)
    (opts : ValidationOptions) (e : VError) :
    e ∈ validateResolverMap types resolvers opts ↔
      IsViolation types resolvers opts e := by
  rw [validateResolverMap, List.mem_append, List.mem_flatMap]
  constructor
  · intro h
    rcases h with ⟨T, hT, hTE⟩ | hExt
    · rcases (mem_typeErrors resolvers opts T e).mp hTE with ⟨fd, hfd, hfe⟩ | hres
      · rcases (mem_fieldErrors resolvers opts T.name fd e).mp hfe with
          ⟨h1, h2, he⟩ | ⟨h1, h2, h3, h4, he⟩ | ⟨h1, h2, h3, h4, he⟩
        · subst he
          exact ⟨h1, h2, T, hT, rfl, fd, hfd, rfl⟩
        · subst he
          exact ⟨h1, h2, h4, T, hT, rfl, fd, hfd, rfl, h3⟩
        · subst he
          exact ⟨h1, h2, h4, T, hT, rfl, fd, hfd, rfl, h3⟩
      · obtain ⟨h1, h2, h3, he⟩ := hres
        subst he
        exact ⟨h1, h3, T, hT, rfl, h2⟩
    · rcases (mem_extraneousErrors types resolvers opts e).mp hExt with
        ⟨hflag, entry, hentry, hee⟩
      rcases (mem_entryExtraneousErrors types entry e).mp hee with
        ⟨hfind, he⟩ | ⟨T', hfind, fr, hfr, hfe, hrt, he⟩
      · subst he
        exact ⟨hflag, entry, hentry, rfl, hfind⟩
      · subst he
        exact ⟨hflag, entry, hentry, rfl, T', hfind, fr, hfr, rfl, hfe, hrt⟩
  · intro h
    cases e with
    | missingResolverArgs t f =>
      obtain ⟨h1, h2, h3, T, hT, hTn, fd, hfd, hfn, hfa⟩ := h
      subst hTn; subst hfn
      refine Or.inl ⟨T, hT, (mem_typeErrors resolvers opts T _).mpr
        (Or.inl ⟨fd, hfd, (mem_fieldErrors resolvers opts T.name fd _).mpr ?_⟩)⟩
      exact Or.inr (Or.inl ⟨h1, h2, hfa, h3, rfl⟩)
    | missingResolverNonScalar t f =>
      obtain ⟨h1, h2, h3, T, hT, hTn, fd, hfd, hfn, hnsk⟩ := h
      subst hTn; subst hfn
      refine Or.inl ⟨T, hT, (mem_typeErrors resolvers opts T _).mpr
        (Or.inl ⟨fd, hfd, (mem_fieldErrors resolvers opts T.name fd _).mpr ?_⟩)⟩
      exact Or.inr (Or.inr ⟨h1, h2, hnsk, h3, rfl⟩)
    | missingResolverAllFields t f =>
      obtain ⟨h1, h2, T, hT, hTn, fd, hfd, hfn⟩ := h
      subst hTn; subst hfn
      refine Or.inl ⟨T, hT, (mem_typeErrors resolvers opts T _).mpr
        (Or.inl ⟨fd, hfd, (mem_fieldErrors resolvers opts T.name fd _).mpr ?_⟩)⟩
      exact Or.inl ⟨h1, h2, rfl⟩
    | resolveTypeMissing t =>
      obtain ⟨h1, h2, T, hT, hTn, hab⟩ := h
      subst hTn
      exact Or.inl ⟨T, hT, (mem_typeErrors resolvers opts T _).mpr
        (Or.inr ⟨h1, hab, h2, rfl⟩)⟩
    | extraneousType t =>
      obtain ⟨hflag, entry, hentry, hkey, hfind⟩ := h
      subst hkey
      exact Or.inr ((mem_extraneousErrors types resolvers opts _).mpr
        ⟨hflag, entry, hentry, (mem_entryExtraneousErrors types entry _).mpr
          (Or.inl ⟨hfind, rfl⟩)⟩)
    | extraneousField t f =>
      obtain ⟨hflag, entry, hentry, hkey, T', hfind, fr, hfr, hfn, hfe, hrt⟩ := h
      subst hkey; subst hfn
      exact Or.inr ((mem_extraneousErrors types resolvers opts _).mpr
        ⟨hflag, entry, hentry, (mem_entryExtraneousErrors types entry _).mpr
          (Or.inr ⟨T', hfind, fr, hfr, hfe, hrt, rfl⟩)⟩)

/-- C4: one validation pass reports the complete set of violations of all
enabled validation options together: an error is reported by
`assertResolversPresent` exactly when it is a violation, so the reported
set equals the set of violations present rather than a prefix stopping at
the first one. -/
theorem assertResolversPresent_reports_all_violations :
    (∀ (types : List TypeDef) (resolvers : ResolverMap)
        (opts : ValidationOptions) (e : VError),
      e ∈ validateResolverMap types resolvers opts ↔
        IsViolation types resolvers opts e)
    ∧ (∀ (s : Schema) (opts : ValidationOptions) (e : VError),
      e ∈ assertResolversPresent s opts ↔
        IsViolation s.types (declaredResolvers s) opts e) := by
  exact ⟨mem_validateResolverMap,
    fun s opts e => mem_validateResolverMap s.types (declaredResolvers s) opts e⟩

/-- C6: when every resolver map entry names an existing type and only
existing fields, and all four required-resolver options are off,
validation reports zero errors. -/
theorem validation_zero_errors_when_consistent
    (types : List TypeDef) (resolvers : ResolverMap) (opts : ValidationOptions)
    (hargs : opts.requireResolversForArgs = false)
    (hns : opts.requireResolversForNonScalar = false)
    (hall : opts.requireResolversForAllFields = false)
    (hrt : opts.requireResolversForResolveType = false)
    (hexists : ∀ entry ∈ resolvers,
      ∃ T, types.find? (fun x => x.name == entry.1) = some T
        ∧ ∀ fr ∈ entry.2, fieldExists T fr.1 = true) :
    validateResolverMap types resolvers opts = [] := by
  rw [List.eq_nil_iff_forall_not_mem]
  intro e he
  rw [mem_validateResolverMap] at he
  cases e with
  | missingResolverArgs t f =>
    obtain ⟨_, h2, _⟩ := he
    rw [hargs] at h2
    exact absurd h2 (by simp)
  | missingResolverNonScalar t f =>
    obtain ⟨_, h2, _⟩ := he
    rw [hns] at h2
    exact absurd h2 (by simp)
  | missingResolverAllFields t f =>
    obtain ⟨h1, _⟩ := he
    rw [hall] at h1
    exact absurd h1 (by simp)
  | resolveTypeMissing t =>
    obtain ⟨h1, _⟩ := he
    rw [hrt] at h1
    exact absurd h1 (by simp)
  | extraneousType t =>
    obtain ⟨hflag, entry, hentry, hkey, hfind⟩ := he
    obtain ⟨T, hfind2, _⟩ := hexists entry hentry
    rw [hfind] at hfind2
    exact absurd hfind2 (by simp)
  | extraneousField t f =>
    obtain ⟨hflag, entry, hentry, hkey, T', hfind, fr, hfr, hfn, hfe, _⟩ := he
    obtain ⟨T, hfind2, hfields⟩ := hexists entry hentry
    rw [hfind] at hfind2
    obtain rfl : T' = T := by injection hfind2
    rw [← hfn] at hfe
    rw [hfields fr hfr] at hfe
    exact absurd hfe (by simp)

/-- Witness for C6 at a concrete schema and resolver map in which every
declared type and field exists: validation reports zero errors with the
all-false options record. -/
theorem validation_zero_errors_witness :
    validateResolverMap demoTypes demoResolvers {} = [] := by
  apply validation_zero_errors_when_consistent demoTypes demoResolvers {}
    rfl rfl rfl rfl
  intro entry hentry
  have hentry2 : entry = ("Query", [("author", "r1")]) := by
    simpa [demoResolvers] using hentry
  subst hentry2
  exact ⟨⟨"Query", TypeKind.obj,
    [⟨"author", true, TypeKind.obj, none⟩, ⟨"count", false, TypeKind.scalarT, none⟩],
    false⟩, by decide, by decide⟩

/-- An extraneous error is never produced by the schema-side checks. -/
theorem not_mem_typeErrors_extraneous (resolvers : ResolverMap)
    (opts : ValidationOptions) (types : List TypeDef) (e : VError)
    (hext : e.isExtraneous = true) :
    e ∉ types.flatMap (typeErrors resolvers opts) := by
  intro h
  rcases List.mem_flatMap.mp h with ⟨T, hT, hTE⟩
  rcases (mem_typeErrors resolvers opts T e).mp hTE with ⟨fd, hfd, hfe⟩ | ⟨_, _, _, he⟩
  · rcases (mem_fieldErrors resolvers opts T.name fd e).mp hfe with
      ⟨_, _, he⟩ | ⟨_, _, _, _, he⟩ | ⟨_, _, _, _, he⟩
      <;> subst he <;> simp [VError.isExtraneous] at hext
  · subst he
    simp [VError.isExtraneous] at hext

/-- An entry whose key differs from `t` never produces the type-level
extraneous error for `t`. -/
theorem extraneousType_not_mem_entry (types : List TypeDef)
    (entry' : String × List (String × String)) (t : String)
    (hkey : entry'.1 ≠ t) :
    VError.extraneousType t ∉ entryExtraneousErrors types entry' := by
  intro h
  rcases (mem_entryExtraneousErrors types entry' _).mp h with
    ⟨_, he⟩ | ⟨T, _, fr, _, _, _, he⟩
  · injection he with h1
    exact hkey h1.symm
  · exact absurd he (by simp)

/-- An entry whose key differs from `t` never produces the field-level
extraneous error for `t` and `f`. -/
theorem extraneousField_not_mem_entry (types : List TypeDef)
    (entry' : String × List (String × String)) (t f : String)
    (hkey : entry'.1 ≠ t) :
    VError.extraneousField t f ∉ entryExtraneousErrors types entry' := by
  intro h
  rcases (mem_entryExtraneousErrors types entry' _).mp h with
    ⟨_, he⟩ | ⟨T, _, fr, _, _, _, he⟩
  · exact absurd he (by simp)
  · injection he with h1 h2
    exact hkey h1.symm

/-- Counting the field-level extraneous error for `f` over the filtered
and mapped field pairs of one entry yields exactly one when the pair
names are duplicate-free, `f` occurs among them, and `f` is genuinely
extraneous for the found type. -/
theorem count_pairs_extraneousField (t f : String) (T : TypeDef)
    (l : List (String × String))
    (hnod : (l.map Prod.fst).Nodup) (hmem : f ∈ l.map Prod.fst)
    (hfe : fieldExists T f = false)
    (hrt : ¬(f = "__resolveType" ∧ isAbstractKind T.kind = true)) :
    ((l.filter (fun fr => !(fieldExists T fr.1)
        && !(fr.1 == "__resolveType" && isAbstractKind T.kind))).map
      (fun fr => VError.extraneousField t fr.1)).count
      (VError.extraneousField t f) = 1 := by
  induction l with
  | nil => simp at hmem
  | cons hd tl ih =>
    rw [List.map_cons, List.nodup_cons] at hnod
    by_cases hf : hd.1 = f
    · have hPhd : (!(fieldExists T hd.1)
          && !(hd.1 == "__resolveType" && isAbstractKind T.kind)) = true := by
        rw [hf, Bool.and_eq_true, Bool.not_eq_true', Bool.not_eq_true']
        refine ⟨hfe, ?_⟩
        by_cases hb : f = "__resolveType"
        · cases hab : isAbstractKind T.kind
          · simp [hb, hab]
          · exact absurd ⟨hb, hab⟩ hrt
        · simp [hb]
      rw [List.filter_cons, if_pos hPhd, List.map_cons, hf]
      have hnotmem : VError.extraneousField t f ∉
          (tl.filter (fun fr => !(fieldExists T fr.1)
            && !(fr.1 == "__resolveType" && isAbstractKind T.kind))).map
            (fun fr => VError.extraneousField t fr.1) := by
        intro hc
        rcases List.mem_map.mp hc with ⟨fr, hfr, he⟩
        injection he with h1 h2
        rw [hf] at hnod
        exact hnod.1 (h2 ▸ List.mem_map_of_mem Prod.fst (List.mem_of_mem_filter hfr))
      rw [List.count_cons_self, List.count_eq_zero.mpr hnotmem]
    · have hmem2 : f ∈ tl.map Prod.fst := by
        rw [List.map_cons] at hmem
        rcases List.mem_cons.mp hmem with h | h
        · exact absurd h.symm hf
        · exact h
      have hne : VError.extraneousField t hd.1 ≠ VError.extraneousField t f := by
        intro hc
        injection hc with h1 h2
        exact hf h2
      rw [List.filter_cons]
      by_cases hP : (!(fieldExists T hd.1)
          && !(hd.1 == "__resolveType" && isAbstractKind T.kind)) = true
      · rw [if_pos hP, List.map_cons, List.count_cons_of_ne hne.symm]
        exact ih hnod.2 hmem2
      · rw [if_neg hP]
        exact ih hnod.2 hmem2

/-- Counting the field-level extraneous error inside its own entry yields
exactly one. -/
theorem count_entry_extraneousField (types : List TypeDef)
    (entry : String × List (String × String)) (T : TypeDef) (f : String)
    (hfind : types.find? (fun x => x.name == entry.1) = some T)
    (hnod : (entry.2.map Prod.fst).Nodup)
    (hmem : f ∈ entry.2.map Prod.fst)
    (hfe : fieldExists T f = false)
    (hrt : ¬(f = "__resolveType" ∧ isAbstractKind T.kind = true)) :
    (entryExtraneousErrors types entry).count (VError.extraneousField entry.1 f) = 1 := by
  unfold entryExtraneousErrors
  rw [hfind]
  exact count_pairs_extraneousField entry.1 f T entry.2 hnod hmem hfe hrt

/-- When the resolver map keys are duplicate-free, the count of an error
over the whole extraneous scan equals its count inside the one entry it
belongs to, provided every other key's entry cannot produce it. -/
theorem count_flatMap_extraneous (types : List TypeDef) (resolvers : ResolverMap)
    (entry : String × List (String × String)) (e : VError)
    (hnod : (resolvers.map Prod.fst).Nodup) (hmem : entry ∈ resolvers)
    (hother : ∀ entry' : String × List (String × String), entry'.1 ≠ entry.1 →
      e ∉ entryExtraneousErrors types entry') :
    (resolvers.flatMap (entryExtraneousErrors types)).count e =
      (entryExtraneousErrors types entry).count e := by
  induction resolvers with
  | nil => cases hmem
  | cons hd tl ih =>
    rw [List.flatMap_cons, List.count_append]
    rw [List.map_cons, List.nodup_cons] at hnod
    rcases List.mem_cons.mp hmem with heq | hmem2
    · subst heq
      have hzero : (tl.flatMap (entryExtraneousErrors types)).count e = 0 := by
        rw [List.count_eq_zero]
        intro hc
        rcases List.mem_flatMap.mp hc with ⟨x, hx, hex⟩
        have hxne : x.1 ≠ entry.1 := by
          intro heq2
          exact hnod.1 (heq2 ▸ List.mem_map_of_mem Prod.fst hx)
        exact hother x hxne hex
      rw [hzero, Nat.add_zero]
    · have hne : hd.1 ≠ entry.1 := by
        intro heq2
        exact hnod.1 (heq2 ▸ List.mem_map_of_mem Prod.fst hmem2)
      have hzero : (entryExtraneousErrors types hd).count e = 0 :=
        List.count_eq_zero.mpr (hother hd hne)
      rw [hzero, Nat.zero_add]
      exact ih hnod.2 hmem2

/-- C5: with `allowResolversNotInSchema` set, validation reports no
extraneous errors at all; with it unset, validation reports exactly one
type-level extraneous error for an entry naming an unknown type, and
exactly one field-level extraneous error for each entry field absent from
its known type. -/
theorem extraneous_resolver_reporting :
    (∀ (types : List TypeDef) (resolvers : ResolverMap) (opts : ValidationOptions),
      opts.allowResolversNotInSchema = true →
      ∀ e ∈ validateResolverMap types resolvers opts, e.isExtraneous = false)
    ∧ (∀ (types : List TypeDef) (resolvers : ResolverMap) (opts : ValidationOptions)
        (entry : String × List (String × String)),
      opts.allowResolversNotInSchema = false →
      (resolvers.map Prod.fst).Nodup →
      entry ∈ resolvers →
      types.find? (fun x => x.name == entry.1) = none →
      (validateResolverMap types resolvers opts).count
        (VError.extraneousType entry.1) = 1)
    ∧ (∀ (types : List TypeDef) (resolvers : ResolverMap) (opts : ValidationOptions)
        (entry : String × List (String × String)) (T : TypeDef) (f : String),
      opts.allowResolversNotInSchema = false →
      (resolvers.map Prod.fst).Nodup →
      entry ∈ resolvers →
      (entry.2.map Prod.fst).Nodup →
      types.find? (fun x => x.name == entry.1) = some T →
      f ∈ entry.2.map Prod.fst →
      fieldExists T f = false →
      ¬(f = "__resolveType" ∧ isAbstractKind T.kind = true) →
      (validateResolverMap types resolvers opts).count
        (VError.extraneousField entry.1 f) = 1) := by
  refine ⟨?_, ?_, ?_⟩
  · intro types resolvers opts hflag e he
    rw [mem_validateResolverMap] at he
    cases e with
    | extraneousType t =>
      obtain ⟨h1, _⟩ := he
      rw [hflag] at h1
      exact absurd h1 (by simp)
    | extraneousField t f =>
      obtain ⟨h1, _⟩ := he
      rw [hflag] at h1
      exact absurd h1 (by simp)
    | missingResolverArgs t f => rfl
    | missingResolverNonScalar t f => rfl
    | missingResolverAllFields t f => rfl
    | resolveTypeMissing t => rfl
  · intro types resolvers opts entry hflag hnod hmem hfind
    rw [validateResolverMap, List.count_append]
    rw [List.count_eq_zero.mpr
      (not_mem_typeErrors_extraneous resolvers opts types
        (VError.extraneousType entry.1) rfl), Nat.zero_add]
    rw [extraneousErrors, hflag]
    simp only [Bool.false_eq_true, if_false]
    rw [count_flatMap_extraneous types resolvers entry _ hnod hmem
      (fun entry' hne => extraneousType_not_mem_entry types entry' entry.1 hne)]
    unfold entryExtraneousErrors
    rw [hfind]
    simp
  · intro types resolvers opts entry T f hflag hnod hmem hnodf hfind hmemf hfe hrt
    rw [validateResolverMap, List.count_append]
    rw [List.count_eq_zero.mpr
      (not_mem_typeErrors_extraneous resolvers opts types
        (VError.extraneousField entry.1 f) rfl), Nat.zero_add]
    rw [extraneousErrors, hflag]
    simp only [Bool.false_eq_true, if_false]
    rw [count_flatMap_extraneous types resolvers entry _ hnod hmem
      (fun entry' hne => extraneousField_not_mem_entry types entry' entry.1 f hne)]
    exact count_entry_extraneousField types entry T f hfind hnodf hmemf hfe hrt

/-- Witness for C5 at a concrete schema and resolver map with one entry
naming an unknown type and one naming an unknown field: each yields
exactly one extraneous error, and with `allowResolversNotInSchema` set no
extraneous error is reported. -/
theorem extraneous_resolver_reporting_witness :
    (validateResolverMap demoTypes demoExtraneous
      { allowResolversNotInSchema := true }).all
        (fun e => ! e.isExtraneous) = true
    ∧ (validateResolverMap demoTypes demoExtraneous {}).count
        (VError.extraneousType "Ghost") = 1
    ∧ (validateResolverMap demoTypes demoExtraneous {}).count
        (VError.extraneousField "Vehicle" "nope") = 1 := by
  refine ⟨?_, ?_, ?_⟩
  · rw [List.all_eq_true]
    intro e he
    rw [extraneous_resolver_reporting.1 demoTypes demoExtraneous
      { allowResolversNotInSchema := true } rfl e he]
    rfl
  · exact extraneous_resolver_reporting.2.1 demoTypes demoExtraneous {}
      ("Ghost", [("x", "r2")]) rfl (by decide) (by decide) (by decide)
  · exact extraneous_resolver_reporting.2.2 demoTypes demoExtraneous {}
      ("Vehicle", [("nope", "r3")])
      ⟨"Vehicle", TypeKind.iface, [⟨"maxSpeed", false, TypeKind.scalarT, none⟩], false⟩
      "nope" rfl (by decide) (by decide) (by decide) (by decide) (by decide)
      (by decide) (by decide)

/-- Mapping a list with a function that preserves a predicate commutes
with searching for the first element satisfying it. -/
theorem find?_map_of_pred_eq {α : Type} (l : List α) (g : α → α) (p : α → Bool)
    (hp : ∀ x, p (g x) = p x) :
    (l.map g).find? p = (l.find? p).map g := by
  induction l with
  | nil => rfl
  | cons x rest ih =>
    rw [List.map_cons]
    cases h : p x
    · rw [List.find?_cons_of_neg _ (by rw [hp]; simp [h]),
        List.find?_cons_of_neg _ (by simp [h]), ih]
    · rw [List.find?_cons_of_pos _ (by rw [hp]; exact h),
        List.find?_cons_of_pos _ h]
      rfl

/-- Field lookup after resolver attachment finds the original field with
its resolver slot set to the user-supplied resolver when the resolver map
names the field, and to the default field resolver otherwise. -/
theorem getField_addResolversToSchema (s : Schema) (resolvers : ResolverMap)
    (t f : String) :
    getField (addResolversToSchema s resolvers) t f =
      (getField s t f).map (fun fd =>
        { fd with resolve := some (chosenResolver resolvers t f) }) := by
  unfold getField addResolversToSchema
  dsimp only
  rw [find?_map_of_pred_eq s.types (attachTypeResolvers resolvers)
    (fun T => T.name == t) (fun T => rfl)]
  cases hT : s.types.find? (fun T => T.name == t) with
  | none => rfl
  | some T =>
    have ht : T.name = t := by
      have := List.find?_some hT
      simpa using this
    rw [Option.map_some', Option.some_bind, Option.some_bind]
    unfold attachTypeResolvers
    dsimp only
    rw [find?_map_of_pred_eq T.fields (attachFieldResolver resolvers T.name)
      (fun fd => fd.name == f) (fun fd => rfl)]
    cases hfd : T.fields.find? (fun fd => fd.name == f) with
    | none => rfl
    | some fd =>
      have hf : fd.name = f := by
        have := List.find?_some hfd
        simpa using this
      rw [Option.map_some', Option.map_some']
      show some (attachFieldResolver resolvers T.name fd) = _
      unfold attachFieldResolver
      rw [ht, hf]

/-- Resolver attachment changes nothing but the field resolver slots. -/
theorem eraseResolvers_addResolversToSchema (s : Schema) (resolvers : ResolverMap) :
    eraseResolvers (addResolversToSchema s resolvers) = eraseResolvers s := by
  have hfields : ∀ (tname : String) (l : List FieldDef),
      (l.map (attachFieldResolver resolvers tname)).map
        (fun fd => { fd with resolve := none }) =
      l.map (fun fd => { fd with resolve := none }) := by
    intro tname l
    induction l with
    | nil => rfl
    | cons hd tl ih =>
      rw [List.map_cons, List.map_cons, List.map_cons, ih]
      rfl
  have htypes : ∀ l : List TypeDef,
      (l.map (attachTypeResolvers resolvers)).map
        (fun T : TypeDef =>
          { T with
            fields := T.fields.map (fun fd : FieldDef => { fd with resolve := none }) }) =
      l.map
        (fun T : TypeDef =>
          { T with
            fields := T.fields.map (fun fd : FieldDef => { fd with resolve := none }) }) := by
    intro l
    induction l with
    | nil => rfl
    | cons hd tl ih =>
      rw [List.map_cons, List.map_cons, List.map_cons, ih]
      show ({ hd with
        fields := (hd.fields.map (attachFieldResolver resolvers hd.name)).map
          (fun fd => { fd with resolve := none }) } : TypeDef) :: _ = _
      rw [hfields hd.name hd.fields]
  unfold eraseResolvers addResolversToSchema
  dsimp only
  rw [htypes s.types]

/-- C8: after `addResolversToSchema`, each field named by the resolver map
carries the user-supplied resolve function in its resolver slot, each
existing field not named carries the default field resolver, and every
other part of the schema is unchanged: erasing all resolver slots yields
the same schema as erasing them from the input, and the schema-level
resolver slot is untouched.  The in-place mutation of the passed schema
object is modelled as the returned schema state. -/
theorem addResolversToSchema_attaches :
    (∀ (s : Schema) (resolvers : ResolverMap) (t f id : String) (fd : FieldDef),
      getField s t f = some fd →
      lookupFieldResolver resolvers t f = some id →
      getFieldResolve (addResolversToSchema s resolvers) t f =
        some (some (Resolver.user id)))
    ∧ (∀ (s : Schema) (resolvers : ResolverMap) (t f : String) (fd : FieldDef),
      getField s t f = some fd →
      lookupFieldResolver resolvers t f = none →
      getFieldResolve (addResolversToSchema s resolvers) t f =
        some (some Resolver.defaultFieldResolver))
    ∧ (∀ (s : Schema) (resolvers : ResolverMap),
      eraseResolvers (addResolversToSchema s resolvers) = eraseResolvers s)
    ∧ (∀ (s : Schema) (resolvers : ResolverMap),
      (addResolversToSchema s resolvers).schemaLevelResolver =
        s.schemaLevelResolver) := by
  refine ⟨?_, ?_, eraseResolvers_addResolversToSchema, fun s resolvers => rfl⟩
  · intro s resolvers t f id fd hget hlook
    rw [getFieldResolve, getField_addResolversToSchema, hget]
    unfold chosenResolver
    rw [hlook]
    rfl
  · intro s resolvers t f fd hget hlook
    rw [getFieldResolve, getField_addResolversToSchema, hget]
    unfold chosenResolver
    rw [hlook]
    rfl

/-- Witness for C8 at a concrete schema and resolver map: the named field
author receives the user resolver r1, the unnamed field count receives
the default field resolver, and the resolver-erased schema is
unchanged. -/
theorem addResolversToSchema_attaches_witness :
    getFieldResolve (addResolversToSchema demoSchema demoResolvers)
        "Query" "author" = some (some (Resolver.user "r1"))
    ∧ getFieldResolve (addResolversToSchema demoSchema demoResolvers)
        "Query" "count" = some (some Resolver.defaultFieldResolver)
    ∧ eraseResolvers (addResolversToSchema demoSchema demoResolvers) =
        eraseResolvers demoSchema := by
  refine ⟨?_, ?_, addResolversToSchema_attaches.2.2.1 demoSchema demoResolvers⟩
  · exact addResolversToSchema_attaches.1 demoSchema demoResolvers "Query" "author"
      "r1" ⟨"author", true, TypeKind.obj, none⟩ (by decide) (by decide)
  · exact addResolversToSchema_attaches.2.1 demoSchema demoResolvers "Query" "count"
      ⟨"count", false, TypeKind.scalarT, none⟩ (by decide) (by decide)

end GraphQLTools
